import Mathlib

/-!
Verification of the godot-mcp repository's telemetry and command-bridge core.

Part 1 embeds the frame-decoding `socket.on('data')` handler of
`src/test-debugger.js` (lines 28-85): bytes are modelled as `Nat` values,
buffers as `List Nat`.  The handler appends the incoming chunk to an
accumulated buffer, extracts printable runs from the first 4096 bytes,
scans a 200-offset window for little-endian length-prefixed frames, and
finally trims the buffer to its trailing 4096 bytes once it exceeds 8192.
-/

namespace TestDebugger

/-- Byte is an ASCII letter, the character class of the alphabetic test
`/[a-zA-Z]/` applied at line 69 of `src/test-debugger.js`.  Node's utf8
decoding maps a byte in this range to exactly that character and maps no
other byte sequence to an ASCII letter, so testing the decoded text for a
letter is equivalent to testing the raw bytes. -/
def isAlphaByte (c : Nat) : Bool :=
  (65 ≤ c && c ≤ 90) || (97 ≤ c && c ≤ 122)

/-- Decoded text of the span contains at least one alphabetic character
(`/[a-zA-Z]/.test(str)`, line 69). -/
def hasAlpha (s : List Nat) : Bool :=
  s.any isAlphaByte

/-- `buffer.readUInt32LE(offset)` (line 66): 4 bytes read as a
little-endian unsigned 32-bit integer.  Out-of-range indices default to 0;
the scan only calls this in bounds (proved below). -/
def readUInt32LE (b : List Nat) (o : Nat) : Nat :=
  b.getD o 0 + b.getD (o + 1) 0 * 256 + b.getD (o + 2) 0 * 65536 +
    b.getD (o + 3) 0 * 16777216

/-- Number of offsets visited by the length-prefixed loop
`for (let offset = 0; offset < Math.min(buffer.length - 4, 200); offset++)`
(line 65).  JavaScript's possibly negative `buffer.length - 4` and Nat's
truncated subtraction both make the loop body unreachable for buffers of
fewer than 5 bytes. -/
def scanBound (b : List Nat) : Nat :=
  min (b.length - 4) 200

/-- One iteration of the length-prefixed loop (lines 66-73): emit the span
at `o` when the 4-byte little-endian length is plausible (`0 < len`,
`len < 1000`), the indicated bytes are present, and the span contains an
alphabetic character.  The record keeps the origin offset, as printed. -/
def lpEmit (b : List Nat) (o : Nat) : Option (Nat × List Nat) :=
  if 0 < readUInt32LE b o ∧ readUInt32LE b o < 1000 ∧
      o + 4 + readUInt32LE b o ≤ b.length then
    if hasAlpha ((b.drop (o + 4)).take (readUInt32LE b o)) then
      some (o, (b.drop (o + 4)).take (readUInt32LE b o))
    else none
  else none

/-- All records of the length-prefixed pass over the accumulated buffer
(lines 64-77).  The loop variable advances by one byte per iteration,
whether or not a record was emitted. -/
def lpScan (b : List Nat) : List (Nat × List Nat) :=
  (List.range (scanBound b)).filterMap (fun o => lpEmit b o)

/-- Byte belongs to the whitelisted printable class of the run-extraction
regex `/[a-zA-Z0-9_:.,!? ]{3,}/g` (line 51): letters, digits, underscore,
colon, period, comma, exclamation mark, question mark, space. -/
def isPrintableByte (c : Nat) : Bool :=
  isAlphaByte c || (48 ≤ c && c ≤ 57) ||
  c == 95 || c == 58 || c == 46 || c == 44 || c == 33 || c == 63 || c == 32

/-- Fuel-indexed scan behind `extractRuns`: at a whitelisted byte it takes
the whole maximal run (`takeWhile`), keeps it when it has at least 3
bytes, and continues after the run; at any other byte it moves one byte
on.  The fuel argument only makes the recursion structural; each step
consumes at least one byte, so fuel `l.length` never runs out. -/
def extractRunsF : Nat → List Nat → List (List Nat)
  | 0, _ => []
  | _ + 1, [] => []
  | fuel + 1, c :: t =>
    if isPrintableByte c then
      if 3 ≤ (c :: t.takeWhile isPrintableByte).length then
        (c :: t.takeWhile isPrintableByte) ::
          extractRunsF fuel (t.dropWhile isPrintableByte)
      else extractRunsF fuel (t.dropWhile isPrintableByte)
    else extractRunsF fuel t

/-- Maximal runs of at least 3 whitelisted bytes, in order: the list of
matches of `/[a-zA-Z0-9_:.,!? ]{3,}/g` (lines 51-57).  The regex engine
takes each maximal run of class members and keeps those of length ≥ 3. -/
def extractRuns (l : List Nat) : List (List Nat) :=
  extractRunsF l.length l

/-- The printable-run fallback pass (lines 50-57): the regex runs over
`buffer.toString('utf8', 0, Math.min(buffer.length, 4096))`, i.e. over the
first 4096 bytes only.  Whitelisted characters are pure ASCII, so runs in
the decoded text coincide with runs in the raw bytes. -/
def stringsPass (b : List Nat) : List (List Nat) :=
  extractRuns (b.take 4096)

/-- A decoded record: a length-prefixed frame with its origin offset, or a
printable run (Unknown kind). -/
inductive Rec where
  | frame (offset : Nat) (payload : List Nat)
  | run (payload : List Nat)
deriving DecidableEq

/-- Records printed by one `data` event for accumulated buffer `b`: the
printable-run extraction (lines 46-60) followed by the length-prefixed
scan (lines 62-77). -/
def eventRecs (b : List Nat) : List Rec :=
  (stringsPass b).map Rec.run ++ (lpScan b).map (fun p => Rec.frame p.1 p.2)

/-- Processing of one `data` event (lines 28-85): append the chunk
(line 47), decode the accumulated buffer, then trim to the trailing
4096 bytes when the buffer exceeds 8192 (`buffer.subarray(-4096)`,
lines 80-82). -/
def processEvent (buf chunk : List Nat) : List Rec × List Nat :=
  (eventRecs (buf ++ chunk),
   if 8192 < (buf ++ chunk).length then
     (buf ++ chunk).drop ((buf ++ chunk).length - 4096)
   else buf ++ chunk)

/-- Fold the event handler over a sequence of chunks, accumulating the
emitted records and threading the retained buffer. -/
def processChunks : List Rec → List Nat → List (List Nat) → List Rec × List Nat
  | acc, buf, [] => (acc, buf)
  | acc, buf, c :: cs =>
    processChunks (acc ++ (processEvent buf c).1) (processEvent buf c).2 cs

/-- All records produced by feeding the chunks in order to the handler,
starting from the initial empty buffer (line 25). -/
def processAll (chunks : List (List Nat)) : List Rec × List Nat :=
  processChunks [] [] chunks

end TestDebugger

/-!
Part 2 embeds the GDScript MCP bridge of `src/unnamed/part_001`
(`capture_screenshot`, `simulate_click`, `_on_command_received`).  Engine
state (viewport, captured image, encoders) is abstracted into an
environment record; `print` output is modelled as the list of produced
lines.
-/

namespace Bridge

/-- A JSON value as produced by GDScript `JSON.parse` (part_001 lines
94-100): null, bool, number, string, Array or Dictionary. -/
inductive GVal where
  | nullv
  | boolv (b : Bool)
  | numv (n : Int)
  | strv (s : String)
  | arrv (xs : List GVal)
  | dictv (kvs : List (String × GVal))

/-- Whether a parsed JSON value is a Dictionary: only Dictionaries
support the `get(key, default)` calls of `_on_command_received`. -/
def GVal.isDict : GVal → Bool
  | .dictv _ => true
  | _ => false

/-- A primitive payload value: every Dictionary the bridge prints holds
only strings, numbers and bools. -/
inductive Prim where
  | pstr (s : String)
  | pnum (n : Int)
  | pbool (b : Bool)
deriving DecidableEq

/-- A response Dictionary: ordered key-value pairs, as `JSON.stringify`
serialises them. -/
abbrev Payload := List (String × Prim)

/-- Serialisation of one primitive, as `JSON.stringify` renders it (the
bridge's strings contain no characters needing escapes). -/
def stringifyPrim : Prim → String
  | .pstr s => "\"" ++ s ++ "\""
  | .pnum n => toString n
  | .pbool b => if b then "true" else "false"

/-- Comma-joined `"key":value` pairs of a payload. -/
def stringifyEntries : Payload → String
  | [] => ""
  | [(k, v)] => "\"" ++ k ++ "\":" ++ stringifyPrim v
  | (k, v) :: rest =>
    "\"" ++ k ++ "\":" ++ stringifyPrim v ++ "," ++ stringifyEntries rest

/-- `JSON.stringify` of a flat Dictionary. -/
def stringifyPayload (p : Payload) : String :=
  "\x7b" ++ stringifyEntries p ++ "\x7d"

/-- `response_prefix` (part_001 line 12). -/
def responseMarker : String := "MCP_RESPONSE:"

/-- One printed response line:
`print(response_prefix + JSON.stringify(x))`. -/
def emit (p : Payload) : String :=
  responseMarker ++ stringifyPayload p

/-- The print-then-return pattern used by every branch of
`capture_screenshot` and `simulate_click`. -/
def respond (p : Payload) : List String × Payload :=
  ([emit p], p)

/-- Abstract engine state: whether the viewport and its image are
available, the bytes the two encoders produce, and the image size. -/
structure BridgeEnv where
  viewportOk : Bool
  imageOk : Bool
  jpgBuffer : List Nat
  pngBuffer : List Nat
  imgWidth : Int
  imgHeight : Int

/-- The standard base64 alphabet used by `Marshalls.raw_to_base64`. -/
def base64Table : List Char :=
  "ABCDEFGHIJKLMNOPQRSTUVWXYZabcdefghijklmnopqrstuvwxyz0123456789+/".toList

/-- Character of the base64 alphabet at a 6-bit index. -/
def b64Char (i : Nat) : Char :=
  base64Table.getD i 'A'

/-- Base64 encoding of a byte sequence (`Marshalls.raw_to_base64`,
part_001 line 48). -/
def base64Encode : List Nat → String
  | [] => ""
  | [a] =>
    String.mk [b64Char (a / 4), b64Char (a % 4 * 16)] ++ "=="
  | [a, b] =>
    String.mk [b64Char (a / 4), b64Char (a % 4 * 16 + b / 16),
      b64Char (b % 16 * 4)] ++ "="
  | a :: b :: c :: rest =>
    String.mk [b64Char (a / 4), b64Char (a % 4 * 16 + b / 16),
      b64Char (b % 16 * 4 + c / 64), b64Char (c % 64)] ++ base64Encode rest

/-- The byte buffer `capture_screenshot` encodes: the jpg encoder for
`format == "jpg" or format == "jpeg"` (line 38), the png encoder for any
other format string. -/
def chosenBuffer (env : BridgeEnv) (format : String) : List Nat :=
  if format == "jpg" || format == "jpeg" then env.jpgBuffer else env.pngBuffer

/-- `capture_screenshot` (part_001 lines 24-60): printed lines and the
returned Dictionary.  The three error branches print a Dictionary holding
only `type` and `error`; the success branch prints `type`, `success`,
base64 `data`, `size`, `width`, `height` and the echoed `format`. -/
def capture_screenshot (env : BridgeEnv) (format : String) :
    List String × Payload :=
  if env.viewportOk = false then
    respond [(("type" : String), Prim.pstr ("screenshot")),
      (("error" : String), Prim.pstr ("Failed to get viewport"))]
  else if env.imageOk = false then
    respond [(("type" : String), Prim.pstr ("screenshot")),
      (("error" : String), Prim.pstr ("Failed to get image from viewport"))]
  else if chosenBuffer env format = [] then
    respond [(("type" : String), Prim.pstr ("screenshot")),
      (("error" : String), Prim.pstr ("Failed to encode image"))]
  else
    respond [(("type" : String), Prim.pstr ("screenshot")),
      (("success" : String), Prim.pbool true),
      (("data" : String), Prim.pstr (base64Encode (chosenBuffer env format))),
      (("size" : String), Prim.pnum ((chosenBuffer env format).length : Int)),
      (("width" : String), Prim.pnum env.imgWidth),
      (("height" : String), Prim.pnum env.imgHeight),
      (("format" : String), Prim.pstr format)]

/-- A simulated mouse-button input event handed to
`Input.parse_input_event`. -/
structure MouseEvent where
  button_index : Int
  pressed : Bool
  x : Int
  y : Int
deriving DecidableEq

/-- Godot's `MOUSE_BUTTON_LEFT` code. -/
def MOUSE_BUTTON_LEFT : Int := 1

/-- `simulate_click` (part_001 lines 68-89): a press event and a release
event at the same position, and the printed click result. -/
def simulate_click (x y button : Int) :
    List MouseEvent × (List String × Payload) :=
  ([⟨button, true, x, y⟩, ⟨button, false, x, y⟩],
   respond [(("type" : String), Prim.pstr ("click")),
     (("success" : String), Prim.pbool true),
     (("x" : String), Prim.pnum x), (("y" : String), Prim.pnum y),
     (("button" : String), Prim.pnum button)])

/-- `command.get(key, dflt)` for a `String`-typed parameter: a missing
key gives the default; a value of another type would fail GDScript's
typed parameter, modelled as `none`. -/
def getStrParam (kvs : List (String × GVal)) (k dflt : String) :
    Option String :=
  match kvs.lookup k with
  | none => some dflt
  | some (GVal.strv s) => some s
  | some _ => none

/-- `command.get(key, dflt)` for an `int`-typed parameter. -/
def getIntParam (kvs : List (String × GVal)) (k : String) (dflt : Int) :
    Option Int :=
  match kvs.lookup k with
  | none => some dflt
  | some (GVal.numv n) => some n
  | some _ => none

/-- The string value of `command.get("action")`: GDScript `match` only
reaches the `"screenshot"`/`"click"` arms when the action is that exact
string; a missing key (null) and non-string values fall to `_`. -/
def actionOf (kvs : List (String × GVal)) : Option String :=
  match kvs.lookup ("action") with
  | some (GVal.strv s) => some s
  | _ => none

/-- The `match command.get("action")` body of `_on_command_received`
(part_001 lines 101-111) for a parsed Dictionary: dispatch to
`capture_screenshot` or `simulate_click` with the documented parameter
defaults, or print the unknown-action error. -/
def dispatchDict (env : BridgeEnv) (kvs : List (String × GVal)) :
    Option (List String × List MouseEvent) :=
  if actionOf kvs = some ("screenshot") then
    match getStrParam kvs ("format") ("png") with
    | some f => some ((capture_screenshot env f).1, [])
    | none => none
  else if actionOf kvs = some ("click") then
    match getIntParam kvs ("x") 0, getIntParam kvs ("y") 0,
        getIntParam kvs ("button") MOUSE_BUTTON_LEFT with
    | some x, some y, some button =>
      some ((simulate_click x y button).2.1, (simulate_click x y button).1)
    | _, _, _ => none
  else
    some ([emit [(("type" : String), Prim.pstr ("error")),
      (("message" : String), Prim.pstr ("Unknown command action"))]], [])

/-- `_on_command_received` (part_001 lines 93-111) applied to the result
of `json.parse`: `none` stands for a parse error, in which case a typed
error line is printed; a Dictionary is dispatched on its `action`; any
other parsed value makes `command.get("action")` an invalid call on a
non-Dictionary — a runtime script error that aborts the handler with no
response, modelled as the result `none`.  The result carries the printed
lines and the parsed input events. -/
def dispatch (env : BridgeEnv) (parsed : Option GVal) :
    Option (List String × List MouseEvent) :=
  match parsed with
  | none =>
    some ([emit [(("type" : String), Prim.pstr ("error")),
      (("message" : String), Prim.pstr ("Invalid JSON command"))]], [])
  | some (GVal.dictv kvs) => dispatchDict env kvs
  | some _ => none

end Bridge

/-!
Part 3 embeds the client-config writers of `src/scripts/init.js` and
`src/unnamed/part_000` (`writeClaudeDesktopConfig`,
`writeClaudeCodeConfig`, `writeCursorConfig`): all three share the same
merge logic over the parsed existing configuration, differing only in
paths and in the written `godot` entry.
-/

namespace InitConfig

/-- A parsed JSON configuration value. -/
inductive J where
  | nullj
  | boolj (b : Bool)
  | numj (n : Int)
  | strj (s : String)
  | arrj (xs : List J)
  | objj (kvs : List (String × J))

/-- JavaScript truthiness of a parsed JSON value, as tested by
`if (!config.mcpServers)`. -/
def jsTruthy : J → Bool
  | .nullj => false
  | .boolj b => b
  | .numj n => n != 0
  | .strj s => s != ""
  | .arrj _ => true
  | .objj _ => true

/-- JavaScript property assignment on an object: an existing key is
updated in place (key order preserved), a new key is appended, exactly as
`JSON.stringify` then serialises it. -/
def setKey : List (String × J) → String → J → List (String × J)
  | [], k, v => [(k, v)]
  | (k0, v0) :: rest, k, v =>
    if k0 = k then (k0, v) :: rest else (k0, v0) :: setKey rest k v

/-- The `godot` server entry written by `writeClaudeDesktopConfig`
(init.js lines 196-202; the Claude Code and Cursor variants add a DEBUG
env var to the same shape). -/
def godotEntry (buildPath godotPath : String) : J :=
  J.objj [(("command" : String), J.strj ("node")),
    (("args" : String), J.arrj [J.strj buildPath]),
    (("env" : String), J.objj [(("GODOT_PATH" : String), J.strj godotPath)])]

/-- The value of `config.mcpServers` after
`if (!config.mcpServers) config.mcpServers = {}`: a falsy or missing
value is replaced by an empty object. -/
def serversValue (kvs : List (String × J)) : J :=
  match kvs.lookup ("mcpServers") with
  | some v => if jsTruthy v then v else J.objj []
  | none => J.objj []

/-- Merge step shared by all three config writers (init.js lines 181-204,
part_000 lines 274-297), expressed on the parsed existing file (`none`
when the file is missing or unparseable, in which case `config = {}`) and
observed through the JSON that `writeFileSync` serialises.
`Except.error ()` marks a thrown `TypeError` — strict-mode property
assignment on a primitive, or property access on `null` — which the
surrounding try/catch turns into a logged failure with no file written.
An Array config accepts expando properties that `JSON.stringify` ignores,
so its serialised value is unchanged. -/
def updateObj (kvs : List (String × J)) (entry : J) : Except Unit J :=
  match serversValue kvs with
  | .objj ms =>
    .ok (.objj (setKey kvs ("mcpServers") (.objj (setKey ms ("godot") entry))))
  | .arrj ms => .ok (.objj (setKey kvs ("mcpServers") (.arrj ms)))
  | _ => .error ()

/-- Case split of the same merge step on the parsed top-level value. -/
def updateConfig (parsed : Option J) (entry : J) : Except Unit J :=
  match parsed.getD (J.objj []) with
  | .nullj => .error ()
  | .objj kvs => updateObj kvs entry
  | .arrj xs => .ok (.arrj xs)
  | _ => .error ()

end InitConfig

namespace TestDebugger

/-- Characterisation of a successful `lpEmit`: the record keeps the loop
offset and the guarded span, and the guard conditions hold. -/
theorem lpEmit_eq_some (b : List Nat) (a o : Nat) (s : List Nat)
    (h : lpEmit b a = some (o, s)) :
    a = o ∧ s = (b.drop (a + 4)).take (readUInt32LE b a) ∧
      0 < readUInt32LE b a ∧ readUInt32LE b a < 1000 ∧
      a + 4 + readUInt32LE b a ≤ b.length ∧ hasAlpha s = true := by
  unfold lpEmit at h
  split at h
  · split at h
    · rename_i hc hh
      have h2 := Option.some.inj h
      rw [Prod.mk.injEq] at h2
      obtain ⟨rfl, rfl⟩ := h2
      exact ⟨rfl, rfl, hc.1, hc.2.1, hc.2.2, hh⟩
    · exact absurd h (by simp)
  · exact absurd h (by simp)

/-- Claim C9: the length-prefixed scan is memory-safe: a buffer shorter
than 5 bytes is never scanned, the 4-byte length is only read at offsets
with at least 4 bytes available, and an emitted span always lies inside
the buffer. -/
theorem lp_scan_memory_safe (b : List Nat) :
    (b.length < 5 → scanBound b = 0) ∧
    (∀ o, o < scanBound b → o + 3 < b.length) ∧
    (∀ o s, (o, s) ∈ lpScan b → o + 4 + readUInt32LE b o ≤ b.length) := by
  refine ⟨?_, ?_, ?_⟩
  · intro h
    unfold scanBound
    omega
  · intro o ho
    unfold scanBound at ho
    omega
  · intro o s h
    obtain ⟨a, _, hfa⟩ := List.mem_filterMap.mp h
    obtain ⟨h1, _, _, _, h5, _⟩ := lpEmit_eq_some b a o s hfa
    rw [← h1]
    exact h5

/-- Witness for C9 at concrete buffers. -/
theorem lp_scan_memory_safe_witness :
    scanBound ([1, 2, 3] : List Nat) = 0 ∧
    0 + 3 < ([1, 0, 0, 0, 97] : List Nat).length ∧
    0 + 4 + readUInt32LE [1, 0, 0, 0, 97] 0 ≤ ([1, 0, 0, 0, 97] : List Nat).length :=
  ⟨(lp_scan_memory_safe [1, 2, 3]).1 (by decide),
   (lp_scan_memory_safe [1, 0, 0, 0, 97]).2.1 0 (by decide),
   (lp_scan_memory_safe [1, 0, 0, 0, 97]).2.2 0 [97] (by decide)⟩

/-- Counterexample for claim C2: the scan does not advance past an emitted
span.  In this buffer a frame is emitted at offset 0 covering bytes 4-12,
and a second frame is emitted at offset 4, strictly inside the first span
(4 < 0 + 4 + 9): the loop moved one byte, not past the span. -/
theorem lp_scan_no_advance_counterexample :
    lpScan [9, 0, 0, 0, 5, 0, 0, 0, 104, 101, 108, 108, 111] =
      [(0, [5, 0, 0, 0, 104, 101, 108, 108, 111]), (4, [104, 101, 108, 108, 111])] ∧
    4 < 0 + 4 + 9 := by
  constructor
  · decide
  · decide

/-- Claim C2 (amended): for every offset inside the bounded scan window,
the pass emits a record at that offset iff the little-endian length is
positive, below 1000, the span is present, and the span has an alphabetic
character; the scan then advances a single byte, so overlapping spans can
both be emitted. -/
theorem lp_pass_emits_iff (b : List Nat) (o : Nat) (ho : o < scanBound b) :
    ((o, (b.drop (o + 4)).take (readUInt32LE b o)) ∈ lpScan b) ↔
      (0 < readUInt32LE b o ∧ readUInt32LE b o < 1000 ∧
       o + 4 + readUInt32LE b o ≤ b.length ∧
       hasAlpha ((b.drop (o + 4)).take (readUInt32LE b o)) = true) := by
  constructor
  · intro h
    obtain ⟨a, _, hfa⟩ := List.mem_filterMap.mp h
    obtain ⟨h1, _, h3, h4, h5, h6⟩ := lpEmit_eq_some b a o _ hfa
    subst h1
    exact ⟨h3, h4, h5, h6⟩
  · intro ⟨h1, h2, h3, h4⟩
    apply List.mem_filterMap.mpr
    refine ⟨o, List.mem_range.mpr ho, ?_⟩
    unfold lpEmit
    rw [if_pos ⟨h1, h2, h3⟩, if_pos h4]

/-- Witness for the amended C2 at a concrete emitting offset. -/
theorem lp_pass_emits_iff_witness :
    (0, (List.drop (0 + 4) [1, 0, 0, 0, 97]).take (readUInt32LE [1, 0, 0, 0, 97] 0)) ∈
      lpScan [1, 0, 0, 0, 97] :=
  (lp_pass_emits_iff [1, 0, 0, 0, 97] 0 (by decide)).mpr (by decide)

/-- Counterexample for claim C1: splitting the bytes `"abcdef"` as
`"abc"` then `"def"` makes the handler emit the run record `"abc"` from
the first prefix, a record that the single-chunk feed never produces, so
the record sets differ. -/
theorem chunked_vs_single_counterexample :
    Rec.run [97, 98, 99] ∈ (processAll [[97, 98, 99], [100, 101, 102]]).1 ∧
    Rec.run [97, 98, 99] ∉ (processAll [[97, 98, 99, 100, 101, 102]]).1 := by
  constructor
  · decide
  · decide

/-- Records already accumulated are preserved by further chunk
processing. -/
theorem processChunks_mono (cs : List (List Nat)) :
    ∀ acc buf r, r ∈ acc → r ∈ (processChunks acc buf cs).1 := by
  induction cs with
  | nil =>
    intro acc buf r h
    exact h
  | cons c cs ih =>
    intro acc buf r h
    exact ih _ _ r (List.mem_append_left _ h)

/-- While the total byte count stays at or below the 8192-byte trim
threshold, the records of a full-buffer decode appear among the records of
chunked processing: the final event re-scans the whole untrimmed buffer. -/
theorem processChunks_last (cs : List (List Nat)) :
    ∀ acc buf, cs ≠ [] → (buf ++ cs.flatten).length ≤ 8192 →
      ∀ r ∈ eventRecs (buf ++ cs.flatten), r ∈ (processChunks acc buf cs).1 := by
  induction cs with
  | nil =>
    intro _ _ h
    exact absurd rfl h
  | cons c cs ih =>
    intro acc buf _ hlen r hr
    have hflat : buf ++ (c :: cs).flatten = (buf ++ c) ++ cs.flatten := by
      rw [List.flatten_cons, List.append_assoc]
    have hb1 : ¬ 8192 < (buf ++ c).length := by
      rw [hflat] at hlen
      simp only [List.length_append] at hlen ⊢
      omega
    have hstep : processEvent buf c = (eventRecs (buf ++ c), buf ++ c) := by
      unfold processEvent
      rw [if_neg hb1]
    rw [processChunks, hstep]
    cases cs with
    | nil =>
      have : buf ++ ([c] : List (List Nat)).flatten = buf ++ c := by simp
      rw [this] at hr
      exact List.mem_append_right _ hr
    | cons d ds =>
      apply ih _ _ (by simp)
      · rw [← hflat]
        exact hlen
      · rw [← hflat]
        exact hr

/-- While the total stays at or below the trim threshold, the retained
buffer is exactly the concatenation of all bytes seen so far. -/
theorem processChunks_buffer (cs : List (List Nat)) :
    ∀ acc buf, (buf ++ cs.flatten).length ≤ 8192 →
      (processChunks acc buf cs).2 = buf ++ cs.flatten := by
  induction cs with
  | nil =>
    intro acc buf _
    simp [processChunks]
  | cons c cs ih =>
    intro acc buf hlen
    have hflat : buf ++ (c :: cs).flatten = (buf ++ c) ++ cs.flatten := by
      rw [List.flatten_cons, List.append_assoc]
    have hb1 : ¬ 8192 < (buf ++ c).length := by
      rw [hflat] at hlen
      simp only [List.length_append] at hlen ⊢
      omega
    have hstep : processEvent buf c = (eventRecs (buf ++ c), buf ++ c) := by
      unfold processEvent
      rw [if_neg hb1]
    rw [processChunks, hstep]
    rw [hflat] at hlen ⊢
    exact ih _ _ hlen

/-- Processing a concatenation of chunk lists processes the first list
and continues from its accumulated state. -/
theorem processChunks_append (cs1 : List (List Nat)) :
    ∀ (cs2 : List (List Nat)) acc buf,
      processChunks acc buf (cs1 ++ cs2) =
        processChunks (processChunks acc buf cs1).1
          (processChunks acc buf cs1).2 cs2 := by
  induction cs1 with
  | nil =>
    intro cs2 acc buf
    rfl
  | cons c cs ih =>
    intro cs2 acc buf
    rw [List.cons_append, processChunks, processChunks]
    exact ih cs2 _ _

/-- The records of the first event of a run are in the run's output. -/
theorem processChunks_first_event (cs : List (List Nat))
    (acc : List Rec) (buf c : List Nat) (r : Rec)
    (hr : r ∈ eventRecs (buf ++ c)) :
    r ∈ (processChunks acc buf (c :: cs)).1 := by
  rw [processChunks]
  exact processChunks_mono cs _ _ r
    (List.mem_append_right acc hr)

/-- Every record of a full-buffer decode already appears in the decode of
any prefix longer than the trim threshold: printable runs read only the
first 4096 bytes, and length-prefixed frames sit at offsets below 200
with lengths below 1000, so their spans end below 1203. -/
theorem eventRecs_of_long_prefix (P Q : List Nat) (hP : 8192 < P.length) :
    ∀ r ∈ eventRecs (P ++ Q), r ∈ eventRecs P := by
  intro r hr
  unfold eventRecs at hr ⊢
  rcases List.mem_append.mp hr with h | h
  · apply List.mem_append_left
    have htake : (P ++ Q).take 4096 = P.take 4096 :=
      List.take_append_of_le_length (by omega)
    unfold stringsPass at h ⊢
    rwa [htake] at h
  · apply List.mem_append_right
    obtain ⟨⟨o, s⟩, hmem, heq⟩ := List.mem_map.mp h
    apply List.mem_map.mpr
    refine ⟨(o, s), ?_, heq⟩
    obtain ⟨a, ha, hfa⟩ := List.mem_filterMap.mp hmem
    obtain ⟨rfl, hs, hc1, hc2, hc3, hc4⟩ := lpEmit_eq_some _ a o s hfa
    rw [List.mem_range] at ha
    have ho200 : a < 200 := by
      unfold scanBound at ha
      omega
    have hread : readUInt32LE P a = readUInt32LE (P ++ Q) a := by
      unfold readUInt32LE
      rw [List.getD_append _ _ _ a (by omega),
        List.getD_append _ _ _ (a + 1) (by omega),
        List.getD_append _ _ _ (a + 2) (by omega),
        List.getD_append _ _ _ (a + 3) (by omega)]
    have hspan : (P.drop (a + 4)).take (readUInt32LE (P ++ Q) a) = s := by
      rw [hs, List.drop_append_of_le_length (by omega),
        List.take_append_of_le_length (by rw [List.length_drop]; omega)]
    apply List.mem_filterMap.mpr
    refine ⟨a, List.mem_range.mpr ?_, ?_⟩
    · unfold scanBound
      omega
    · unfold lpEmit
      rw [hread, if_pos ⟨hc1, hc2, by omega⟩, hspan, if_pos hc4]

/-- In a stream of more than 8192 bytes there is a first chunk whose
arrival pushes the cumulative length past 8192. -/
theorem split_first_exceed (chunks : List (List Nat)) :
    ∀ base : Nat, base ≤ 8192 → 8192 < base + chunks.flatten.length →
      ∃ cs1 c cs2, chunks = cs1 ++ c :: cs2 ∧
        base + cs1.flatten.length ≤ 8192 ∧
        8192 < base + cs1.flatten.length + c.length := by
  induction chunks with
  | nil =>
    intro base hb h
    rw [List.flatten_nil] at h
    simp only [List.length_nil] at h
    omega
  | cons c cs ih =>
    intro base hb h
    by_cases hc : 8192 < base + c.length
    · refine ⟨[], c, cs, rfl, ?_, ?_⟩
      · rw [List.flatten_nil]
        simpa using hb
      · rw [List.flatten_nil]
        simpa using hc
    · rw [List.flatten_cons, List.length_append] at h
      obtain ⟨cs1, c2, cs2, hsplit, h1, h2⟩ :=
        ih (base + c.length) (by omega) (by omega)
      refine ⟨c :: cs1, c2, cs2, by rw [hsplit, List.cons_append], ?_, ?_⟩
      · rw [List.flatten_cons, List.length_append]
        omega
      · rw [List.flatten_cons, List.length_append]
        omega

/-- Claim C1 (amended): chunk-boundary independence fails as an equality
of record sets — prefixes can contribute extra records — but one
inclusion holds unconditionally: every record of the single-chunk feed is
also produced by the chunked feed.  Either no trim ever fires and the
final event re-decodes the whole stream, or the first event whose
pre-trim buffer exceeds 8192 bytes decodes an untrimmed prefix that
already contains every single-feed record. -/
theorem single_chunk_records_subset (chunks : List (List Nat)) :
    ∀ r ∈ (processAll [chunks.flatten]).1, r ∈ (processAll chunks).1 := by
  intro r hr
  have h1 : (processAll [chunks.flatten]).1 = eventRecs chunks.flatten := by
    unfold processAll
    rw [processChunks, processChunks]
    unfold processEvent
    simp
  rw [h1] at hr
  by_cases hlen : chunks.flatten.length ≤ 8192
  · cases hch : chunks with
    | nil =>
      subst hch
      rw [show eventRecs (List.flatten ([] : List (List Nat))) = [] from rfl] at hr
      exact absurd hr (List.not_mem_nil r)
    | cons c cs =>
      subst hch
      exact processChunks_last (c :: cs) [] [] (by simp) (by simpa using hlen) r
        (by simpa using hr)
  · push_neg at hlen
    obtain ⟨cs1, c, cs2, hsplit, hb1, hb2⟩ :=
      split_first_exceed chunks 0 (by omega) (by omega)
    subst hsplit
    unfold processAll
    rw [processChunks_append]
    have hbuf : (processChunks [] [] cs1).2 = cs1.flatten := by
      have h := processChunks_buffer cs1 [] [] (by simpa using hb1)
      simpa using h
    rw [hbuf]
    apply processChunks_first_event
    have hflat : (cs1 ++ c :: cs2).flatten = (cs1.flatten ++ c) ++ cs2.flatten := by
      rw [List.flatten_append, List.flatten_cons, List.append_assoc]
    rw [hflat] at hr
    exact eventRecs_of_long_prefix (cs1.flatten ++ c) cs2.flatten
      (by simp only [List.length_append]; omega) r hr

/-- Witness for the amended C1: the run `"aaa"` decoded from the single
chunk `"aaa"` is also produced by the split `"a"` + `"aa"`. -/
theorem single_chunk_records_subset_witness :
    Rec.run [97, 97, 97] ∈ (processAll [[97], [97, 97]]).1 :=
  single_chunk_records_subset [[97], [97, 97]]
    (Rec.run [97, 97, 97]) (by decide)

/-- Counterexample for claim C4: a successful decode pass (the chunk
decodes to a run record and a frame record) does not trim the buffer: the
consumed span is retained in full. -/
theorem buffer_not_trimmed_after_decode_counterexample :
    (processEvent [] [5, 0, 0, 0, 104, 101, 108, 108, 111]).1 ≠ [] ∧
    (processEvent [] [5, 0, 0, 0, 104, 101, 108, 108, 111]).2 =
      [5, 0, 0, 0, 104, 101, 108, 108, 111] := by
  constructor
  · decide
  · decide

/-- Claim C4 (amended): trimming is purely size-driven: after every chunk
the retained buffer never exceeds the 8192-byte high-water mark, and
whenever the appended buffer exceeds it, exactly the trailing 4096 bytes
are retained; decoded spans are never dropped eagerly. -/
theorem buffer_high_water_mark (buf chunk : List Nat) :
    (processEvent buf chunk).2.length ≤ 8192 ∧
    (8192 < (buf ++ chunk).length → (processEvent buf chunk).2.length = 4096) := by
  by_cases h : 8192 < (buf ++ chunk).length
  · have h2 : (processEvent buf chunk).2 =
        (buf ++ chunk).drop ((buf ++ chunk).length - 4096) := by
      unfold processEvent
      rw [if_pos h]
    rw [h2, List.length_drop]
    exact ⟨by omega, fun _ => by omega⟩
  · have h2 : (processEvent buf chunk).2 = buf ++ chunk := by
      unfold processEvent
      rw [if_neg h]
    rw [h2]
    exact ⟨by omega, fun hc => absurd hc h⟩

/-- Witness for the amended C4: a 8193-byte chunk is trimmed to 4096
bytes. -/
theorem buffer_high_water_mark_witness :
    (processEvent [] (List.replicate 8193 0)).2.length = 4096 :=
  (buffer_high_water_mark [] (List.replicate 8193 0)).2
    (by rw [List.nil_append, List.length_replicate]; omega)

/-- Reading inside a dropped prefix shifts the index. -/
theorem getD_drop_aux (l : List Nat) (n i d : Nat) :
    (l.drop n).getD i d = l.getD (n + i) d := by
  simp [List.getD_eq_getElem?_getD, List.getElem?_drop]

/-- Reading inside a taken prefix is reading the original list. -/
theorem getD_take_aux (l : List Nat) (n i d : Nat) (h : i < n) :
    (l.take n).getD i d = l.getD i d := by
  simp [List.getD_eq_getElem?_getD, List.getElem?_take, h]

/-- When the first `m` positions satisfy `p` and position `m` is the end
of the list or fails `p`, `takeWhile` takes exactly `m` elements. -/
theorem takeWhile_eq_take_of (p : Nat → Bool) :
    ∀ (l : List Nat) (m : Nat),
      (∀ i, i < m → p (l.getD i 0) = true) →
      (m = l.length ∨ p (l.getD m 0) = false) →
      l.takeWhile p = l.take m := by
  intro l
  induction l with
  | nil =>
    intro m _ _
    simp
  | cons a t ih =>
    intro m h1 h2
    cases m with
    | zero =>
      have hpa : p a = false := by
        rcases h2 with h | h
        · exact absurd h (by simp)
        · simpa using h
      rw [List.takeWhile_cons, if_neg (by simp [hpa]), List.take_zero]
    | succ mm =>
      have hpa : p a = true := by
        have := h1 0 (Nat.succ_pos mm)
        simpa using this
      rw [List.takeWhile_cons, if_pos hpa, List.take_succ_cons]
      congr 1
      apply ih
      · intro i hi
        have := h1 (i + 1) (by omega)
        rwa [List.getD_cons_succ] at this
      · rcases h2 with h | h
        · left
          simp only [List.length_cons] at h
          omega
        · right
          rwa [List.getD_cons_succ] at h

/-- `dropWhile` drops exactly the `takeWhile` part. -/
theorem dropWhile_eq_drop_aux (p : Nat → Bool) :
    ∀ l : List Nat, l.dropWhile p = l.drop (l.takeWhile p).length := by
  intro l
  induction l with
  | nil => simp
  | cons a t ih =>
    cases hpa : p a
    · rw [List.dropWhile_cons, if_neg (by simp [hpa]),
        List.takeWhile_cons, if_neg (by simp [hpa])]
      simp
    · rw [List.dropWhile_cons, if_pos hpa, List.takeWhile_cons, if_pos hpa]
      simp only [List.length_cons, List.drop_succ_cons]
      exact ih

/-- A failing position bounds the length of the `takeWhile` part. -/
theorem takeWhile_length_le_of_false (p : Nat → Bool) :
    ∀ (l : List Nat) (j : Nat), j < l.length → p (l.getD j 0) = false →
      (l.takeWhile p).length ≤ j := by
  intro l
  induction l with
  | nil =>
    intro j h _
    simp at h
  | cons a t ih =>
    intro j hj hp
    cases j with
    | zero =>
      have hpa : p a = false := by simpa using hp
      simp [List.takeWhile_cons, hpa]
    | succ jj =>
      cases hpa : p a
      · simp [List.takeWhile_cons, hpa]
      · rw [List.takeWhile_cons, if_pos hpa]
        simp only [List.length_cons]
        have hle := ih jj (by simp only [List.length_cons] at hj; omega)
          (by rwa [List.getD_cons_succ] at hp)
        omega

/-- Core of the amended C3: a maximal whitelisted run of length at least 3
is one of the regex matches, provided the fuel covers the list. -/
theorem run_mem_extractRunsF :
    ∀ (fuel : Nat) (w : List Nat) (p l : Nat),
      w.length ≤ fuel → 3 ≤ l → p + l ≤ w.length →
      (∀ i, p ≤ i → i < p + l → isPrintableByte (w.getD i 0) = true) →
      (p = 0 ∨ isPrintableByte (w.getD (p - 1) 0) = false) →
      (p + l = w.length ∨ isPrintableByte (w.getD (p + l) 0) = false) →
      (w.drop p).take l ∈ extractRunsF fuel w := by
  intro fuel
  induction fuel with
  | zero =>
    intro w p l hf hl hpl _ _ _
    exfalso
    omega
  | succ n ih =>
    intro w p l hf hl hpl hall hleft hright
    cases w with
    | nil =>
      exfalso
      simp only [List.length_nil] at hpl
      omega
    | cons c t =>
      simp only [List.length_cons] at hf hpl
      by_cases hp0 : p = 0
      · subst hp0
        have hpc : isPrintableByte c = true := by
          have := hall 0 (Nat.le_refl 0) (by omega)
          simpa using this
        have htw : t.takeWhile isPrintableByte = t.take (l - 1) := by
          apply takeWhile_eq_take_of
          · intro i hi
            have := hall (i + 1) (by omega) (by omega)
            rwa [List.getD_cons_succ] at this
          · rcases hright with h | h
            · left
              simp only [List.length_cons, Nat.zero_add] at h
              omega
            · right
              have hidx : (0 : Nat) + l = (l - 1) + 1 := by omega
              rw [hidx, List.getD_cons_succ] at h
              exact h
        have hrunlen : (c :: t.take (l - 1)).length = l := by
          simp only [List.length_cons, List.length_take]
          omega
        have hl1 : l = (l - 1) + 1 := by omega
        have hgoal_eq : ((c :: t).drop 0).take l = c :: t.take (l - 1) := by
          rw [List.drop_zero]
          calc (c :: t).take l = (c :: t).take ((l - 1) + 1) := by rw [← hl1]
            _ = c :: t.take (l - 1) := List.take_succ_cons
        rw [hgoal_eq]
        simp only [extractRunsF]
        rw [if_pos hpc, htw, if_pos (by rw [hrunlen]; exact hl)]
        exact List.mem_cons_self _ _
      · have hp1 : p = (p - 1) + 1 := by omega
        have hnpleft : isPrintableByte ((c :: t).getD (p - 1) 0) = false := by
          rcases hleft with h | h
          · exact absurd h hp0
          · exact h
        cases hpc : isPrintableByte c
        · have hdp : (c :: t).drop p = t.drop (p - 1) := by
            calc (c :: t).drop p = (c :: t).drop ((p - 1) + 1) := by rw [← hp1]
              _ = t.drop (p - 1) := List.drop_succ_cons
          have hmem : ((c :: t).drop p).take l ∈ extractRunsF n t := by
            rw [hdp]
            apply ih t (p - 1) l
            · omega
            · exact hl
            · omega
            · intro i hi1 hi2
              have := hall (i + 1) (by omega) (by omega)
              rwa [List.getD_cons_succ] at this
            · by_cases hpone : p = 1
              · left
                omega
              · right
                have hidx : p - 1 = (p - 2) + 1 := by omega
                rw [hidx, List.getD_cons_succ] at hnpleft
                have hidx2 : p - 1 - 1 = p - 2 := by omega
                rw [hidx2]
                exact hnpleft
            · rcases hright with h | h
              · left
                simp only [List.length_cons] at h
                omega
              · right
                have hidx : p + l = ((p - 1) + l) + 1 := by omega
                rw [hidx, List.getD_cons_succ] at h
                exact h
          simp only [extractRunsF]
          rw [if_neg (by simp [hpc])]
          exact hmem
        · have hp2 : 2 ≤ p := by
            rcases Nat.lt_or_ge p 2 with hlt | hge
            · exfalso
              have hpone : p = 1 := by omega
              rw [hpone, show (1 : Nat) - 1 = 0 from rfl, List.getD_cons_zero] at hnpleft
              rw [hpc] at hnpleft
              exact absurd hnpleft (by decide)
            · exact hge
          have hnp2 : isPrintableByte (t.getD (p - 2) 0) = false := by
            have h := hnpleft
            have hidx : p - 1 = (p - 2) + 1 := by omega
            rw [hidx, List.getD_cons_succ] at h
            exact h
          have hkb : (t.takeWhile isPrintableByte).length ≤ p - 2 :=
            takeWhile_length_le_of_false isPrintableByte t (p - 2) (by omega) hnp2
          have hdw : t.dropWhile isPrintableByte =
              t.drop (t.takeWhile isPrintableByte).length :=
            dropWhile_eq_drop_aux isPrintableByte t
          have htail : ((c :: t).drop p).take l ∈
              extractRunsF n (t.drop (t.takeWhile isPrintableByte).length) := by
            have heq : (t.drop (t.takeWhile isPrintableByte).length).drop
                (p - 1 - (t.takeWhile isPrintableByte).length) = (c :: t).drop p := by
              rw [List.drop_drop]
              have hsum : (t.takeWhile isPrintableByte).length +
                  (p - 1 - (t.takeWhile isPrintableByte).length) = p - 1 := by omega
              rw [hsum]
              calc t.drop (p - 1) = (c :: t).drop ((p - 1) + 1) :=
                    (List.drop_succ_cons).symm
                _ = (c :: t).drop p := by rw [← hp1]
            have hmain := ih (t.drop (t.takeWhile isPrintableByte).length)
              (p - 1 - (t.takeWhile isPrintableByte).length) l
              (by rw [List.length_drop]; omega)
              hl
              (by rw [List.length_drop]; omega)
              (by
                intro i hi1 hi2
                rw [getD_drop_aux]
                have := hall ((t.takeWhile isPrintableByte).length + i + 1)
                  (by omega) (by omega)
                have hidx : (t.takeWhile isPrintableByte).length + i + 1 =
                    ((t.takeWhile isPrintableByte).length + i) + 1 := rfl
                rw [hidx, List.getD_cons_succ] at this
                exact this)
              (by
                right
                rw [getD_drop_aux]
                have hidx : (t.takeWhile isPrintableByte).length +
                    (p - 1 - (t.takeWhile isPrintableByte).length - 1) = p - 2 := by
                  omega
                rw [hidx]
                exact hnp2)
              (by
                rcases hright with h | h
                · left
                  rw [List.length_drop]
                  simp only [List.length_cons] at h
                  omega
                · right
                  rw [getD_drop_aux]
                  have hidx : (t.takeWhile isPrintableByte).length +
                      (p - 1 - (t.takeWhile isPrintableByte).length + l) =
                      (p - 1) + l := by omega
                  rw [hidx]
                  have hidx2 : p + l = ((p - 1) + l) + 1 := by omega
                  rw [hidx2, List.getD_cons_succ] at h
                  exact h)
            rw [heq] at hmain
            exact hmain
          simp only [extractRunsF]
          rw [if_pos hpc, hdw]
          split
          · exact List.mem_cons_of_mem _ htail
          · exact htail

/-- Claim C3 (amended): for a buffer that never satisfies the
length-prefix heuristic, every maximal run of at least 3 whitelisted
bytes that lies within the first 4096 bytes of the buffer is emitted by
the printable-run fallback; runs beyond the 4096-byte decode window are
not covered. -/
theorem printable_run_emitted (b : List Nat) (p l : Nat)
    (hnolp : lpScan b = []) (hl : 3 ≤ l) (hwin : p + l ≤ 4096)
    (hlen : p + l ≤ b.length)
    (hall : ∀ i, p ≤ i → i < p + l → isPrintableByte (b.getD i 0) = true)
    (hleft : p = 0 ∨ isPrintableByte (b.getD (p - 1) 0) = false)
    (hright : p + l = b.length ∨ isPrintableByte (b.getD (p + l) 0) = false) :
    (b.drop p).take l ∈ stringsPass b := by
  clear hnolp
  have hples : p + l ≤ (b.take 4096).length := by
    rw [List.length_take]
    omega
  have hrun_eq : ((b.take 4096).drop p).take l = (b.drop p).take l := by
    rw [List.drop_take, List.take_take]
    have hmin : l ⊓ (4096 - p) = l := by omega
    rw [hmin]
  rw [← hrun_eq]
  unfold stringsPass extractRuns
  apply run_mem_extractRunsF
  · exact Nat.le_refl _
  · exact hl
  · exact hples
  · intro i hi1 hi2
    rw [getD_take_aux b 4096 i 0 (by omega)]
    exact hall i hi1 hi2
  · rcases hleft with h | h
    · left
      exact h
    · right
      rw [getD_take_aux b 4096 (p - 1) 0 (by omega)]
      exact h
  · by_cases hpl4 : p + l < (b.take 4096).length
    · have hq : p + l < 4096 ∧ p + l < b.length := by
        rw [List.length_take] at hpl4
        omega
      rcases hright with h | h
      · exfalso
        omega
      · right
        rw [getD_take_aux b 4096 (p + l) 0 hq.1]
        exact h
    · left
      omega

/-- Witness for the amended C3: the 3-byte run `"aaa"` in a buffer the
heuristic never matches is emitted. -/
theorem printable_run_emitted_witness :
    [97, 97, 97] ∈ stringsPass [97, 97, 97] := by
  have h := printable_run_emitted [97, 97, 97] 0 3 (by decide) (by decide)
    (by decide) (by decide)
    (by
      intro i h1 h2
      interval_cases i <;> decide)
    (Or.inl rfl) (Or.inl (by decide))
  simpa using h

/-- The regex never matches inside a buffer of non-whitelisted bytes. -/
theorem extractRunsF_replicate_255 :
    ∀ (fuel n : Nat), extractRunsF fuel (List.replicate n 255) = [] := by
  intro fuel
  induction fuel with
  | zero =>
    intro n
    rfl
  | succ m ih =>
    intro n
    cases n with
    | zero => rfl
    | succ nn =>
      rw [List.replicate_succ]
      simp only [extractRunsF]
      rw [if_neg (by decide)]
      exact ih nn

/-- Positions inside the leading replicate block hold the byte 255. -/
theorem getD_replicate_aux (a d : Nat) :
    ∀ (n j : Nat), j < n → (List.replicate n a).getD j d = a := by
  intro n
  induction n with
  | zero =>
    intro j h
    omega
  | succ m ih =>
    intro j h
    cases j with
    | zero =>
      rw [List.replicate_succ, List.getD_cons_zero]
    | succ jj =>
      rw [List.replicate_succ, List.getD_cons_succ]
      exact ih jj (by omega)

/-- Counterexample for claim C3: the buffer of 4096 bytes `0xFF` followed
by `"abc"` never satisfies the length-prefix heuristic and holds a
maximal whitelisted run of length 3 at offset 4096, yet the fallback pass
emits nothing, because the run extraction only reads the first 4096
bytes. -/
theorem printable_run_fallback_counterexample :
    lpScan (List.replicate 4096 255 ++ [97, 98, 99]) = [] ∧
    (List.replicate 4096 255 ++ [97, 98, 99]).drop 4096 = [97, 98, 99] ∧
    (∀ c ∈ [97, 98, 99], isPrintableByte c = true) ∧
    isPrintableByte ((List.replicate 4096 255 ++ [97, 98, 99]).getD 4095 0) = false ∧
    (List.replicate 4096 255 ++ [97, 98, 99]).length = 4099 ∧
    [97, 98, 99] ∉ stringsPass (List.replicate 4096 255 ++ [97, 98, 99]) := by
  have hlen : (List.replicate 4096 (255 : Nat) ++ [97, 98, 99]).length = 4099 := by
    rw [List.length_append, List.length_replicate]
    rfl
  have hfront : ∀ j, j < 4096 →
      (List.replicate 4096 (255 : Nat) ++ [97, 98, 99]).getD j 0 = 255 := by
    intro j hj
    rw [List.getD_append _ _ _ j (by rw [List.length_replicate]; omega)]
    exact getD_replicate_aux 255 0 4096 j hj
  have hsp : stringsPass (List.replicate 4096 255 ++ [97, 98, 99]) = [] := by
    unfold stringsPass
    have htake : (List.replicate 4096 (255 : Nat) ++ [97, 98, 99]).take 4096 =
        List.replicate 4096 255 := by
      have h := List.take_left (List.replicate 4096 (255 : Nat)) [97, 98, 99]
      rwa [List.length_replicate] at h
    rw [htake]
    unfold extractRuns
    exact extractRunsF_replicate_255 _ _
  refine ⟨?_, ?_, ?_, ?_, hlen, ?_⟩
  · unfold lpScan
    apply List.filterMap_eq_nil_iff.mpr
    intro o ho
    rw [List.mem_range] at ho
    have hsb : scanBound (List.replicate 4096 255 ++ [97, 98, 99]) = 200 := by
      unfold scanBound
      rw [hlen]
      omega
    have ho2 : o < 200 := by
      rw [hsb] at ho
      exact ho
    have hread : readUInt32LE (List.replicate 4096 255 ++ [97, 98, 99]) o =
        4294967295 := by
      unfold readUInt32LE
      rw [hfront o (by omega), hfront (o + 1) (by omega), hfront (o + 2) (by omega),
        hfront (o + 3) (by omega)]
    unfold lpEmit
    rw [hread, if_neg (by omega)]
  · have h := List.drop_left (List.replicate 4096 (255 : Nat)) [97, 98, 99]
    rwa [List.length_replicate] at h
  · decide
  · rw [hfront 4095 (by omega)]
    decide
  · rw [hsp]
    exact List.not_mem_nil _

end TestDebugger

namespace Bridge

/-- Every branch of `capture_screenshot` prints exactly the single line
for the Dictionary it returns. -/
theorem capture_line (env : BridgeEnv) (f : String) :
    ∀ line ∈ (capture_screenshot env f).1, ∃ p, line = emit p := by
  intro line hl
  unfold capture_screenshot respond at hl
  repeat' split at hl
  all_goals simp only [List.mem_singleton] at hl
  all_goals exact ⟨_, hl⟩

/-- Counterexample for claim C5: for the recognized `screenshot` action
with an unavailable viewport, the bridge's response Dictionary carries
`type` and `error` but no `success` flag at all. -/
theorem response_success_flag_counterexample :
    (capture_screenshot ⟨false, true, [], [], 640, 480⟩ ("png")).2.lookup ("success") =
      none ∧
    dispatch ⟨false, true, [], [], 640, 480⟩
        (some (GVal.dictv [(("action" : String), GVal.strv ("screenshot"))])) =
      some ((capture_screenshot ⟨false, true, [], [], 640, 480⟩ ("png")).1, []) := by
  constructor
  · rfl
  · rfl

/-- Claim C5 (amended): every response line the dispatcher produces is
prefixed by the response marker; a successful screenshot response is the
single marker line for a Dictionary carrying `type = "screenshot"`, a
true `success` flag, base64 image data, and the image's width and
height; error responses carry `type` with an `error` or `message` field
and no `success` flag. -/
theorem response_shape (env : BridgeEnv) :
    (∀ parsed out, dispatch env parsed = some out →
      ∀ line ∈ out.1, ∃ rest, line = responseMarker ++ rest) ∧
    (∀ format, env.viewportOk = true → env.imageOk = true →
      chosenBuffer env format ≠ [] →
      (capture_screenshot env format).1 = [emit (capture_screenshot env format).2] ∧
      (capture_screenshot env format).2.lookup ("type") =
        some (Prim.pstr ("screenshot")) ∧
      (capture_screenshot env format).2.lookup ("success") =
        some (Prim.pbool true) ∧
      (capture_screenshot env format).2.lookup ("data") =
        some (Prim.pstr (base64Encode (chosenBuffer env format))) ∧
      (capture_screenshot env format).2.lookup ("width") =
        some (Prim.pnum env.imgWidth) ∧
      (capture_screenshot env format).2.lookup ("height") =
        some (Prim.pnum env.imgHeight)) := by
  constructor
  · intro parsed out h line hl
    cases parsed with
    | none =>
      obtain rfl := Option.some.inj h
      simp only [List.mem_singleton] at hl
      exact ⟨_, hl⟩
    | some v =>
      cases v with
      | nullv => exact Option.noConfusion h
      | boolv b => exact Option.noConfusion h
      | numv n => exact Option.noConfusion h
      | strv s => exact Option.noConfusion h
      | arrv xs => exact Option.noConfusion h
      | dictv kvs =>
        have hd : dispatchDict env kvs = some out := h
        unfold dispatchDict at hd
        by_cases ha : actionOf kvs = some ("screenshot")
        · rw [if_pos ha] at hd
          cases hg : getStrParam kvs ("format") ("png") with
          | none =>
            rw [hg] at hd
            exact Option.noConfusion hd
          | some f =>
            rw [hg] at hd
            obtain rfl := Option.some.inj hd
            obtain ⟨p, hp⟩ := capture_line env f line hl
            exact ⟨stringifyPayload p, hp⟩
        · rw [if_neg ha] at hd
          by_cases hc : actionOf kvs = some ("click")
          · rw [if_pos hc] at hd
            cases hx : getIntParam kvs ("x") 0 with
            | none =>
              rw [hx] at hd
              exact Option.noConfusion hd
            | some x =>
              cases hy : getIntParam kvs ("y") 0 with
              | none =>
                rw [hx, hy] at hd
                exact Option.noConfusion hd
              | some y =>
                cases hb : getIntParam kvs ("button") MOUSE_BUTTON_LEFT with
                | none =>
                  rw [hx, hy, hb] at hd
                  exact Option.noConfusion hd
                | some button =>
                  rw [hx, hy, hb] at hd
                  obtain rfl := Option.some.inj hd
                  simp only [simulate_click, respond, List.mem_singleton] at hl
                  exact ⟨_, hl⟩
          · rw [if_neg hc] at hd
            obtain rfl := Option.some.inj hd
            simp only [List.mem_singleton] at hl
            exact ⟨_, hl⟩
  · intro format h1 h2 h3
    have hnv : ¬ env.viewportOk = false := by rw [h1]; simp
    have hni : ¬ env.imageOk = false := by rw [h2]; simp
    have hcap : capture_screenshot env format =
        respond [(("type" : String), Prim.pstr ("screenshot")),
          (("success" : String), Prim.pbool true),
          (("data" : String), Prim.pstr (base64Encode (chosenBuffer env format))),
          (("size" : String), Prim.pnum ((chosenBuffer env format).length : Int)),
          (("width" : String), Prim.pnum env.imgWidth),
          (("height" : String), Prim.pnum env.imgHeight),
          (("format" : String), Prim.pstr format)] := by
      unfold capture_screenshot
      rw [if_neg hnv, if_neg hni, if_neg h3]
    rw [hcap]
    refine ⟨rfl, rfl, rfl, rfl, rfl, rfl⟩

/-- Witness for the amended C5: a concrete successful screenshot. -/
theorem response_shape_witness :
    (capture_screenshot ⟨true, true, [1], [2, 3], 640, 480⟩ ("png")).2.lookup ("data") =
      some (Prim.pstr (base64Encode [2, 3])) ∧
    ∃ rest, emit [(("type" : String), Prim.pstr ("error")),
      (("message" : String), Prim.pstr ("Invalid JSON command"))] =
        responseMarker ++ rest :=
  ⟨((response_shape ⟨true, true, [1], [2, 3], 640, 480⟩).2 ("png") rfl rfl
      (by decide)).2.2.2.1,
   (response_shape ⟨true, true, [1], [2, 3], 640, 480⟩).1 none _ rfl _
     (List.mem_singleton.mpr rfl)⟩

/-- Counterexample for claim C6: the string `"5"` is valid JSON, its
action is neither `"screenshot"` nor `"click"`, yet the dispatcher
produces no response at all: `command.get("action")` is an invalid call
on the parsed non-Dictionary value and the handler dies in a runtime
script error instead of printing the `"Unknown command action"` error. -/
theorem dispatch_nondict_counterexample :
    dispatch ⟨true, true, [0], [0], 640, 480⟩ (some (GVal.numv 5)) = none := rfl

/-- Claim C6 (amended): a string that is not valid JSON yields exactly
one marker-prefixed `"Invalid JSON command"` error line; a command that
parses to a Dictionary whose action is neither `"screenshot"` nor
`"click"` yields exactly one `"Unknown command action"` error line; but a
command that parses to a non-Dictionary JSON value hits an invalid
`get` call and produces no response. -/
theorem dispatch_error_paths :
    (∀ env, dispatch env none =
      some ([emit [(("type" : String), Prim.pstr ("error")),
        (("message" : String), Prim.pstr ("Invalid JSON command"))]], [])) ∧
    (∀ env kvs, actionOf kvs ≠ some ("screenshot") →
      actionOf kvs ≠ some ("click") →
      dispatch env (some (GVal.dictv kvs)) =
        some ([emit [(("type" : String), Prim.pstr ("error")),
          (("message" : String), Prim.pstr ("Unknown command action"))]], [])) ∧
    (∀ env v, GVal.isDict v = false → dispatch env (some v) = none) := by
  refine ⟨fun env => rfl, ?_, ?_⟩
  · intro env kvs h1 h2
    show dispatchDict env kvs = _
    unfold dispatchDict
    rw [if_neg h1, if_neg h2]
  · intro env v hv
    cases v with
    | nullv => rfl
    | boolv b => rfl
    | numv n => rfl
    | strv s => rfl
    | arrv xs => rfl
    | dictv kvs => exact absurd hv (by simp [GVal.isDict])

/-- Witness for the amended C6 at concrete commands. -/
theorem dispatch_error_paths_witness :
    dispatch ⟨true, true, [0], [0], 640, 480⟩
        (some (GVal.dictv [(("action" : String), GVal.strv ("noop"))])) =
      some ([emit [(("type" : String), Prim.pstr ("error")),
        (("message" : String), Prim.pstr ("Unknown command action"))]], []) ∧
    dispatch ⟨true, true, [0], [0], 640, 480⟩ (some (GVal.strv ("x"))) = none :=
  ⟨dispatch_error_paths.2.1 _ _ (by decide) (by decide),
   dispatch_error_paths.2.2 _ _ rfl⟩

/-- Claim C7: a `screenshot` command without a `format` key dispatches
with the default `"png"`; a `click` command without a `button` key
dispatches with the left-button code, and its integer `x` and `y` are
passed through to the press and release events that are fed to
`Input.parse_input_event`. -/
theorem dispatch_defaults :
    (∀ (env : BridgeEnv) kvs, actionOf kvs = some ("screenshot") →
      kvs.lookup ("format") = none →
      dispatch env (some (GVal.dictv kvs)) =
        some ((capture_screenshot env ("png")).1, [])) ∧
    (∀ (env : BridgeEnv) kvs (x y : Int), actionOf kvs = some ("click") →
      kvs.lookup ("x") = some (GVal.numv x) →
      kvs.lookup ("y") = some (GVal.numv y) →
      kvs.lookup ("button") = none →
      dispatch env (some (GVal.dictv kvs)) =
        some ((simulate_click x y MOUSE_BUTTON_LEFT).2.1,
          (simulate_click x y MOUSE_BUTTON_LEFT).1) ∧
      (simulate_click x y MOUSE_BUTTON_LEFT).1 =
        [⟨MOUSE_BUTTON_LEFT, true, x, y⟩, ⟨MOUSE_BUTTON_LEFT, false, x, y⟩]) := by
  constructor
  · intro env kvs ha hf
    have hg : getStrParam kvs ("format") ("png") = some ("png") := by
      unfold getStrParam
      rw [hf]
    show dispatchDict env kvs = _
    unfold dispatchDict
    rw [if_pos ha, hg]
  · intro env kvs x y ha hx hy hb
    have hna : actionOf kvs ≠ some ("screenshot") := by
      rw [ha]
      decide
    have hgx : getIntParam kvs ("x") 0 = some x := by
      unfold getIntParam
      rw [hx]
    have hgy : getIntParam kvs ("y") 0 = some y := by
      unfold getIntParam
      rw [hy]
    have hgb : getIntParam kvs ("button") MOUSE_BUTTON_LEFT =
        some MOUSE_BUTTON_LEFT := by
      unfold getIntParam
      rw [hb]
    constructor
    · show dispatchDict env kvs = _
      unfold dispatchDict
      rw [if_neg hna, if_pos ha, hgx, hgy, hgb]
    · rfl

/-- Witness for C7 at concrete commands. -/
theorem dispatch_defaults_witness :
    dispatch ⟨true, true, [4], [5], 640, 480⟩
        (some (GVal.dictv [(("action" : String), GVal.strv ("screenshot"))])) =
      some ((capture_screenshot ⟨true, true, [4], [5], 640, 480⟩ ("png")).1, []) ∧
    dispatch ⟨true, true, [4], [5], 640, 480⟩
        (some (GVal.dictv [(("action" : String), GVal.strv ("click")),
          (("x" : String), GVal.numv 10), (("y" : String), GVal.numv 20)])) =
      some ((simulate_click 10 20 MOUSE_BUTTON_LEFT).2.1,
        (simulate_click 10 20 MOUSE_BUTTON_LEFT).1) :=
  ⟨dispatch_defaults.1 _ _ (by rfl) (by rfl),
   (dispatch_defaults.2 _ _ 10 20 (by rfl) (by rfl) (by rfl) (by rfl)).1⟩

/-- Claim C8: any `format` other than `"jpg"`/`"jpeg"` falls to the PNG
encoder rather than being rejected, while the response still echoes the
requested format string. -/
theorem screenshot_format_fallback (env : BridgeEnv) (format : String)
    (h1 : format ≠ "jpg") (h2 : format ≠ "jpeg")
    (h3 : env.viewportOk = true) (h4 : env.imageOk = true)
    (h5 : env.pngBuffer ≠ []) :
    (capture_screenshot env format).2.lookup ("data") =
      some (Prim.pstr (base64Encode env.pngBuffer)) ∧
    (capture_screenshot env format).2.lookup ("format") =
      some (Prim.pstr format) := by
  have hch : chosenBuffer env format = env.pngBuffer := by
    unfold chosenBuffer
    rw [if_neg (by simp [h1, h2])]
  have hnv : ¬ env.viewportOk = false := by rw [h3]; simp
  have hni : ¬ env.imageOk = false := by rw [h4]; simp
  have hne : ¬ chosenBuffer env format = [] := by rw [hch]; exact h5
  have hcap : (capture_screenshot env format).2 =
      [(("type" : String), Prim.pstr ("screenshot")),
        (("success" : String), Prim.pbool true),
        (("data" : String), Prim.pstr (base64Encode (chosenBuffer env format))),
        (("size" : String), Prim.pnum ((chosenBuffer env format).length : Int)),
        (("width" : String), Prim.pnum env.imgWidth),
        (("height" : String), Prim.pnum env.imgHeight),
        (("format" : String), Prim.pstr format)] := by
    unfold capture_screenshot
    rw [if_neg hnv, if_neg hni, if_neg hne]
    rfl
  rw [hcap, hch]
  exact ⟨rfl, rfl⟩

/-- Witness for C8: the unrecognized format `"bmp"` produces PNG data. -/
theorem screenshot_format_fallback_witness :
    (capture_screenshot ⟨true, true, [1], [2], 640, 480⟩ ("bmp")).2.lookup ("data") =
      some (Prim.pstr (base64Encode [2])) ∧
    (capture_screenshot ⟨true, true, [1], [2], 640, 480⟩ ("bmp")).2.lookup ("format") =
      some (Prim.pstr ("bmp")) :=
  screenshot_format_fallback ⟨true, true, [1], [2], 640, 480⟩ ("bmp")
    (by decide) (by decide) rfl rfl (by decide)

end Bridge

namespace InitConfig

/-- Looking up the key just set finds the new value. -/
theorem lookup_setKey_self :
    ∀ (l : List (String × J)) (k : String) (v : J),
      (setKey l k v).lookup k = some v := by
  intro l
  induction l with
  | nil =>
    intro k v
    rw [show setKey [] k v = [(k, v)] from rfl, List.lookup_cons,
      show (k == k) = true from by simp]
  | cons kv rest ih =>
    intro k v
    obtain ⟨k0, v0⟩ := kv
    by_cases hk : k0 = k
    · rw [setKey, if_pos hk, List.lookup_cons,
        show (k == k0) = true from by simp [hk]]
    · rw [setKey, if_neg hk, List.lookup_cons,
        show (k == k0) = false from by simp [Ne.symm hk]]
      exact ih k v

/-- Setting one key leaves every other key's value unchanged. -/
theorem lookup_setKey_ne :
    ∀ (l : List (String × J)) (k : String) (v : J) (k2 : String), k2 ≠ k →
      (setKey l k v).lookup k2 = l.lookup k2 := by
  intro l
  induction l with
  | nil =>
    intro k v k2 h
    rw [show setKey [] k v = [(k, v)] from rfl, List.lookup_cons,
      show (k2 == k) = false from by simp [h]]
  | cons kv rest ih =>
    intro k v k2 h
    obtain ⟨k0, v0⟩ := kv
    by_cases hk : k0 = k
    · have h2 : k2 ≠ k0 := by
        rw [hk]
        exact h
      rw [setKey, if_pos hk, List.lookup_cons, List.lookup_cons,
        show (k2 == k0) = false from by simp [h2]]
    · rw [setKey, if_neg hk, List.lookup_cons, List.lookup_cons]
      by_cases h2 : k2 = k0
      · rw [show (k2 == k0) = true from by simp [h2]]
      · rw [show (k2 == k0) = false from by simp [h2]]
        exact ih k v k2 h

/-- Counterexample for claim C10: the existing file
`{"mcpServers": 5, "other": true}` exists and parses as JSON, yet the
writer throws a `TypeError` assigning `.godot` on the number `5` (strict
mode), the catch branch logs a failure, and no file is written at all —
nothing is carried over and no `godot` entry is produced. -/
theorem config_writer_counterexample :
    updateConfig (some (J.objj [(("mcpServers" : String), J.numj 5),
      (("other" : String), J.boolj true)])) (godotEntry ("/b") ("/g")) =
      Except.error () := rfl

/-- Claim C10 (amended): when the existing configuration parses to an
object whose `mcpServers` entry is itself an object (or is absent), the
writer replaces only the `godot` entry: every other `mcpServers` key and
every other top-level key keeps its value in the written file; a truthy
non-object `mcpServers` value instead makes the write throw, so no file
is written. -/
theorem config_writer_preserves :
    (∀ (kvs ms : List (String × J)) (entry : J),
      kvs.lookup ("mcpServers") = some (J.objj ms) →
      updateConfig (some (J.objj kvs)) entry =
        Except.ok (J.objj (setKey kvs ("mcpServers")
          (J.objj (setKey ms ("godot") entry)))) ∧
      (∀ k2, k2 ≠ "mcpServers" →
        (setKey kvs ("mcpServers")
          (J.objj (setKey ms ("godot") entry))).lookup k2 = kvs.lookup k2) ∧
      (setKey ms ("godot") entry).lookup ("godot") = some entry ∧
      (∀ k2, k2 ≠ "godot" →
        (setKey ms ("godot") entry).lookup k2 = ms.lookup k2)) ∧
    (∀ (kvs : List (String × J)) (entry : J),
      kvs.lookup ("mcpServers") = none →
      updateConfig (some (J.objj kvs)) entry =
        Except.ok (J.objj (setKey kvs ("mcpServers")
          (J.objj [(("godot" : String), entry)])))) := by
  constructor
  · intro kvs ms entry h
    have hs : serversValue kvs = J.objj ms := by
      unfold serversValue
      rw [h]
      rfl
    refine ⟨?_, ?_, lookup_setKey_self ms _ entry, ?_⟩
    · show updateObj kvs entry = _
      unfold updateObj
      rw [hs]
    · intro k2 h2
      exact lookup_setKey_ne kvs _ _ k2 h2
    · intro k2 h2
      exact lookup_setKey_ne ms _ _ k2 h2
  · intro kvs entry h
    have hs : serversValue kvs = J.objj [] := by
      unfold serversValue
      rw [h]
    show updateObj kvs entry = _
    unfold updateObj
    rw [hs]
    rfl

/-- Witness for the amended C10 at a concrete existing config. -/
theorem config_writer_preserves_witness :
    updateConfig (some (J.objj [(("mcpServers" : String), J.objj []),
        (("top" : String), J.numj 7)])) J.nullj =
      Except.ok (J.objj (setKey [(("mcpServers" : String), J.objj []),
        (("top" : String), J.numj 7)] ("mcpServers")
        (J.objj (setKey [] ("godot") J.nullj)))) ∧
    (setKey ([] : List (String × J)) ("godot") J.nullj).lookup ("godot") =
      some J.nullj :=
  ⟨(config_writer_preserves.1 _ [] J.nullj (by rfl)).1,
   (config_writer_preserves.1 [(("mcpServers" : String), J.objj [])] [] J.nullj
     (by rfl)).2.2.1⟩

end InitConfig
